import Mathlib

/-!
Verification of the anomaly-detection engine of `src/agent.py`
(`data_ingestion_and_anomaly_detection_tool`).

The embedding models, over exact rationals:
  * row cleanup (`pd.to_datetime(..., errors='coerce')` + `dropna(subset=['date'])`),
  * the stable sort `df.sort_values(by=['track_id', 'country', 'date'])`
    (pandas uses a stable lexsort for multi-column sorts),
  * `df.groupby(['track_id', 'track_name', 'artist_name', 'country'])`
    (sorted unique keys; each group keeps the dataframe row order),
  * the causal rolling statistics `views.shift(1).rolling(window=W).mean()` /
    `.std().fillna(0)` (sample standard deviation, `ddof=1`; windows that
    contain the shifted-in NaN or are incomplete give no value, exactly as
    pandas with `min_periods = window`),
  * the classifier `(views > upper_band) & (views > 1000)` with
    `upper_band = moving_avg + moving_std * STD_DEV_THRESHOLD`,
  * the record builder and the tool's result dictionaries.

The standard deviation is irrational in general, so the engine carries the
window's sample *variance* (a rational) and the Boolean classifier
`exceedsBand` compares squares; the lemma `exceedsBand_iff` proves this
Boolean equal to the source's real-valued comparison
`views > moving_avg + sqrt variance * K`.
-/

/-- A calendar date as parsed by `pd.to_datetime` (year, month, day). -/
structure Date where
  y : ℕ
  m : ℕ
  d : ℕ
deriving DecidableEq

/-- One CSV row as read by `pd.read_csv`; `date` is `none` when
`pd.to_datetime(..., errors='coerce')` yields NaT (unparseable date). -/
structure RawRow where
  date : Option Date
  track_id : String
  track_name : String
  artist_name : String
  country : String
  views : ℚ
  platform : String
deriving DecidableEq

/-- A cleaned row: every row surviving `df.dropna(subset=['date'])`. -/
structure CRow where
  date : Date
  track_id : String
  track_name : String
  artist_name : String
  country : String
  views : ℚ
  platform : String
deriving DecidableEq

/-- `df.dropna(subset=['date'])`: keep exactly the rows whose date parsed. -/
def cleanRows (raw : List RawRow) : List CRow :=
  raw.filterMap fun r =>
    r.date.map fun dt =>
      ⟨dt, r.track_id, r.track_name, r.artist_name, r.country, r.views, r.platform⟩

/-- Lexicographic key of a date. -/
def dateKey (dt : Date) : ℕ ×ₗ ℕ ×ₗ ℕ :=
  toLex (dt.y, toLex (dt.m, dt.d))

/-- Chronological order on dates. -/
abbrev dateLe (a b : Date) : Prop := dateKey a ≤ dateKey b

/-- Sort key of `df.sort_values(by=['track_id', 'country', 'date'])`. -/
def sortKey (r : CRow) : String ×ₗ String ×ₗ ℕ ×ₗ ℕ ×ₗ ℕ :=
  toLex (r.track_id, toLex (r.country, dateKey r.date))

/-- Row order used by `df.sort_values(by=['track_id', 'country', 'date'])`. -/
abbrev sortLe (a b : CRow) : Prop := sortKey a ≤ sortKey b

instance : IsTotal CRow sortLe := ⟨fun a b => le_total (sortKey a) (sortKey b)⟩

instance : IsTrans CRow sortLe := ⟨fun _ _ _ h h' => le_trans h h'⟩

/-- The groupby key `(track_id, track_name, artist_name, country)`. -/
def entityKey (r : CRow) : String ×ₗ String ×ₗ String ×ₗ String :=
  toLex (r.track_id, toLex (r.track_name, toLex (r.artist_name, r.country)))

/-- The cleaned, sorted dataframe. pandas' multi-column sort is a stable
lexsort, modelled by insertion sort (stable for a non-strict relation). -/
def sortedRows (raw : List RawRow) : List CRow :=
  List.insertionSort sortLe (cleanRows raw)

/-- Iteration order of `df.groupby(...)`: the distinct entity keys in
ascending lexicographic order (`groupby` sorts its keys by default). -/
def groupKeys (rows : List CRow) : List (String ×ₗ String ×ₗ String ×ₗ String) :=
  List.insertionSort (fun a b => a ≤ b) (rows.map entityKey).dedup

/-- The group of one entity key: its rows in dataframe order. -/
def segmentOf (rows : List CRow) (k : String ×ₗ String ×ₗ String ×ₗ String) : List CRow :=
  rows.filter fun r => decide (entityKey r = k)

/-- `series.shift(1)`: same length, NaN first, each value moved down one. -/
def shift1 (vs : List ℚ) : List (Option ℚ) :=
  (none :: vs.map some).take vs.length

/-- A window of optional values is usable only when NaN-free. -/
def seqOpt : List (Option ℚ) → Option (List ℚ)
  | [] => some []
  | none :: _ => none
  | some x :: rest => (seqOpt rest).map fun l => x :: l

/-- The window `rolling(window=W)` aggregates at index `i` over the shifted
series: the `W` entries at indices `i+1-W .. i`, provided the window is
complete and NaN-free (pandas defaults `min_periods` to the window size). -/
def windowAt (W : ℕ) (vs : List ℚ) (i : ℕ) : Option (List ℚ) :=
  if W ≤ i + 1 then
    if (((shift1 vs).drop (i + 1 - W)).take W).length = W
    then seqOpt (((shift1 vs).drop (i + 1 - W)).take W)
    else none
  else none

/-- Arithmetic mean, as computed by `rolling(...).mean()`. -/
def mean (w : List ℚ) : ℚ := w.sum / (w.length : ℚ)

/-- Sample variance (`ddof = 1`), the square of `rolling(...).std()`. -/
def sampleVar (w : List ℚ) : ℚ :=
  (w.map fun x => (x - mean w) ^ 2).sum / ((w.length : ℚ) - 1)

/-- The rolling point at index `i`: `moving_avg` together with the window's
sample variance; the variance is `none` exactly where `rolling(...).std()`
is NaN (window of fewer than two values), which `.fillna(0)` later sends
to a standard deviation of `0`. The whole point is `none` where
`moving_avg` is NaN, i.e. on the rows that `dropna(subset=['moving_avg'])`
removes. -/
def rollingAt (W : ℕ) (vs : List ℚ) (i : ℕ) : Option (ℚ × Option ℚ) :=
  (windowAt W vs i).map fun w =>
    (mean w, if 2 ≤ w.length then some (sampleVar w) else none)

/-- `moving_std` after `.fillna(0)`, as a real number. -/
noncomputable def movStdR : Option ℚ → ℝ
  | some s2 => Real.sqrt (s2 : ℝ)
  | none => 0

/-- The `moving_std` column value at index `i` (`none` on dropped rows). -/
noncomputable def movingStdAt (W : ℕ) (vs : List ℚ) (i : ℕ) : Option ℝ :=
  (rollingAt W vs i).map fun s => movStdR s.2

/-- The `upper_band` column value at index `i`:
`moving_avg + moving_std * STD_DEV_THRESHOLD` (with threshold `K`). -/
noncomputable def upperBandAt (W : ℕ) (K : ℚ) (vs : List ℚ) (i : ℕ) : Option ℝ :=
  (rollingAt W vs i).map fun s => (s.1 : ℝ) + movStdR s.2 * (K : ℝ)

/-- A row of the per-group dataframe after the rolling columns are added and
`dropna(subset=['moving_avg'])` is applied. -/
structure StatRow where
  row : CRow
  moving_avg : ℚ
  moving_var : Option ℚ
deriving DecidableEq

/-- The group dataframe after `dropna(subset=['moving_avg'])`: each
surviving row paired with its rolling statistics. -/
def withStats (W : ℕ) (g : List CRow) : List StatRow :=
  (List.range g.length).filterMap fun i =>
    match g[i]?, rollingAt W (g.map CRow.views) i with
    | some r, some s => some ⟨r, s.1, s.2⟩
    | _, _ => none

/-- The real-valued `upper_band` of a surviving row. -/
noncomputable def upperBandOf (K : ℚ) (t : StatRow) : ℝ :=
  (t.moving_avg : ℝ) + movStdR t.moving_var * (K : ℝ)

/-- Decidable form of the source comparison `views > upper_band`, i.e.
`views > moving_avg + sqrt variance * K`: for `K ≥ 0` and variance `≥ 0`
this is equivalent to comparing squares (lemma `exceedsBand_iff`). -/
def exceedsBand (v avg : ℚ) (s2opt : Option ℚ) (K : ℚ) : Bool :=
  match s2opt with
  | none => decide (avg < v)
  | some s2 => decide (avg < v) && decide (K ^ 2 * s2 < (v - avg) ^ 2)

/-- The classifier `(group['views'] > group['upper_band']) & (group['views'] > 1000)`. -/
def isAnomaly (K : ℚ) (t : StatRow) : Bool :=
  exceedsBand t.row.views t.moving_avg t.moving_var K && decide ((1000 : ℚ) < t.row.views)

/-- `anomalies_df`: the surviving rows the classifier flags. -/
def anomaliesDf (W : ℕ) (K : ℚ) (g : List CRow) : List StatRow :=
  (withStats W g).filter (isAnomaly K)

/-- Python `int(...)` on a rational: truncation toward zero. -/
def ratTrunc (q : ℚ) : ℤ :=
  if 0 ≤ q then ⌊q⌋ else ⌈q⌉

/-- Python `round(x, 2)` at the exact-arithmetic level: round
`100 * x` half-to-even, then divide by `100`. -/
def roundHalfEven (q : ℚ) : ℤ :=
  if q - ⌊q⌋ < 1 / 2 then ⌊q⌋
  else if 1 / 2 < q - ⌊q⌋ then ⌊q⌋ + 1
  else if ⌊q⌋ % 2 = 0 then ⌊q⌋ else ⌊q⌋ + 1

/-- `round(x, 2)`. -/
def round2 (q : ℚ) : ℚ := (roundHalfEven (q * 100) : ℚ) / 100

/-- Zero-pad a number to two digits, as `strftime` does for `%m` / `%d`. -/
def pad2 (n : ℕ) : String :=
  if n < 10 then "0" ++ toString n else toString n

/-- Zero-pad a number to four digits, as `strftime` does for `%Y`. -/
def pad4 (n : ℕ) : String :=
  if n < 10 then "000" ++ toString n
  else if n < 100 then "00" ++ toString n
  else if n < 1000 then "0" ++ toString n
  else toString n

/-- `row['date'].strftime('%Y-%m-%d')`. -/
def fmtDate (dt : Date) : String :=
  pad4 dt.y ++ "-" ++ pad2 dt.m ++ "-" ++ pad2 dt.d

/-- The `anomaly_data` dictionary built for each flagged row. -/
structure AnomalyRecord where
  date : String
  track_id : String
  track_name : String
  artist_name : String
  country : String
  views : ℤ
  local_average : ℚ
  platform : String
deriving DecidableEq

/-- Construction of one `anomaly_data` record from a flagged row. -/
def buildRecord (t : StatRow) : AnomalyRecord :=
  ⟨fmtDate t.row.date, t.row.track_id, t.row.track_name, t.row.artist_name,
    t.row.country, ratTrunc t.row.views, round2 t.moving_avg, t.row.platform⟩

/-- The records one group contributes: groups shorter than the window are
skipped (`if len(group) < MOVING_AVG_WINDOW: continue`); otherwise one
record per flagged row, in row order. -/
def processGroup (W : ℕ) (K : ℚ) (g : List CRow) : List AnomalyRecord :=
  if g.length < W then [] else (anomaliesDf W K g).map buildRecord

/-- `all_anomalies` at the end of the detection loop. -/
def allAnomalies (W : ℕ) (K : ℚ) (raw : List RawRow) : List AnomalyRecord :=
  (groupKeys (sortedRows raw)).flatMap fun k =>
    processGroup W K (segmentOf (sortedRows raw) k)

/-- `MOVING_AVG_WINDOW` of the source. -/
def MOVING_AVG_WINDOW : ℕ := 2

/-- `STD_DEV_THRESHOLD` of the source. -/
def STD_DEV_THRESHOLD : ℚ := 2

/-- `DATA_FILE` of the source. -/
def DATA_FILE : String := "samples/YouTubeAgent/music_engagement_data.csv"

/-- `ANOMALY_FILE` of the source. -/
def ANOMALY_FILE : String := "samples/YouTubeAgent/output/anomalies.json"

/-- The three result dictionaries the detection tool can return. -/
inductive ToolResult where
  | err (message : String)
  | emptySuccess (message : String)
  | savedSuccess (anomalies_found : ℕ) (output_file : String)
deriving DecidableEq

/-- The `status` field of a result dictionary. -/
def statusOf : ToolResult → String
  | .err _ => "error"
  | .emptySuccess _ => "success"
  | .savedSuccess _ _ => "success"

/-- Result of one run of the detection tool together with the content of
the anomalies file it wrote (`none` when no file was written). -/
structure RunOutcome where
  result : ToolResult
  written : Option (List AnomalyRecord)
deriving DecidableEq

/-- `data_ingestion_and_anomaly_detection_tool`: the input is `none` when
the data file is missing (`FileNotFoundError` branch); otherwise the rows
`pd.read_csv` produced. -/
def data_ingestion_and_anomaly_detection_tool (input : Option (List RawRow)) : RunOutcome :=
  match input with
  | none => ⟨.err ("Data file not found: " ++ DATA_FILE), none⟩
  | some raw =>
      let recs := allAnomalies MOVING_AVG_WINDOW STD_DEV_THRESHOLD raw
      if recs.isEmpty then ⟨.emptySuccess "No significant anomalies found.", none⟩
      else ⟨.savedSuccess recs.length ANOMALY_FILE, some recs⟩

/-! ### Concrete data used by the witnesses and counterexamples -/

/-- A sample value series (the spec's end-to-end scenario). -/
def vsC1 : List ℚ := [100, 110, 105, 500]

/-- Sample cleaned rows for one track in one country. -/
def rowU1 : CRow :=
  ⟨⟨2025, 7, 1⟩, "T1", "Neon Rider", "Synthwave Surfer", "US", 400, "shorts"⟩

def rowU2 : CRow :=
  ⟨⟨2025, 7, 2⟩, "T1", "Neon Rider", "Synthwave Surfer", "US", 400, "shorts"⟩

def rowU3 : CRow :=
  ⟨⟨2025, 7, 3⟩, "T1", "Neon Rider", "Synthwave Surfer", "US", 500, "shorts"⟩

def rowU4 : CRow :=
  ⟨⟨2025, 7, 3⟩, "T1", "Neon Rider", "Synthwave Surfer", "US", 5000, "shorts"⟩

/-- Three-observation group whose third value (500) exceeds its upper band
(400) but not the absolute floor (1000). -/
def gC3 : List CRow := [rowU1, rowU2, rowU3]

def tC3 : StatRow := ⟨rowU3, 400, some 0⟩

def gC10 : List CRow := [rowU1, rowU2, rowU4]

def tC10 : StatRow := ⟨rowU4, 400, some 0⟩

def gC4 : List CRow := [rowU1, rowU2]

def tC8 : StatRow := ⟨rowU3, 215 / 2, some (25 / 2)⟩

/-- A raw row with a parseable date. -/
def rawGood : RawRow :=
  ⟨some ⟨2025, 7, 1⟩, "T1", "Neon Rider", "Synthwave Surfer", "US", 100, "shorts"⟩

/-- Raw rows whose dates failed to parse (NaT after coercion). -/
def rawBad1 : RawRow :=
  ⟨none, "T2", "Neon Rider", "Synthwave Surfer", "US", 50, "shorts"⟩

def rawBad2 : RawRow :=
  ⟨none, "T3", "Neon Rider", "Synthwave Surfer", "US", 60, "shorts"⟩

def rawC5 : List RawRow := [rawGood]

/-! ### Basic facts about the rolling engine -/

theorem seqOpt_map_some (l : List ℚ) : seqOpt (l.map some) = some l := by
  induction l with
  | nil => rfl
  | cons x t ih => simp [seqOpt, ih]

theorem shift1_length (vs : List ℚ) : (shift1 vs).length = vs.length := by
  simp only [shift1, List.length_take, List.length_cons, List.length_map]
  omega

/-- For `W ≤ i < vs.length` the rolling window at `i` is exactly the `W`
original values at indices `i-W .. i-1`. -/
theorem windowAt_eq {W i : ℕ} (vs : List ℚ) (hW : 1 ≤ W) (h1 : W ≤ i)
    (h2 : i < vs.length) :
    windowAt W vs i = some ((vs.drop (i - W)).take W) := by
  have hguard : W ≤ i + 1 := by omega
  have hw : ((shift1 vs).drop (i + 1 - W)).take W
      = ((vs.drop (i - W)).take W).map some := by
    rw [shift1, List.drop_take, show i + 1 - W = (i - W) + 1 by omega,
      List.drop_succ_cons, ← List.map_drop, List.take_take,
      min_eq_left (by omega),
      List.map_take]
  have hlen : (((shift1 vs).drop (i + 1 - W)).take W).length = W := by
    rw [hw]
    simp only [List.length_map, List.length_take, List.length_drop]
    omega
  rw [windowAt, if_pos hguard, hlen, if_pos rfl, hw, seqOpt_map_some]

theorem window_length {W i : ℕ} (vs : List ℚ) (h1 : W ≤ i) (h2 : i < vs.length) :
    ((vs.drop (i - W)).take W).length = W := by
  simp only [List.length_take, List.length_drop]
  omega

theorem windowAt_none_of_lt {W i : ℕ} (vs : List ℚ) (hW : 1 ≤ W) (h : i < W) :
    windowAt W vs i = none := by
  rw [windowAt]
  by_cases hguard : W ≤ i + 1
  · rw [if_pos hguard]
    by_cases hlen : (((shift1 vs).drop (i + 1 - W)).take W).length = W
    · rw [if_pos hlen]
      have hiW : i + 1 - W = 0 := by omega
      have hWn : W ≤ vs.length := by
        simp only [List.length_take, List.length_drop, shift1_length] at hlen
        omega
      obtain ⟨k, rfl⟩ : ∃ k, W = k + 1 := ⟨W - 1, by omega⟩
      obtain ⟨y, t, rfl⟩ : ∃ y t, vs = y :: t := by
        cases vs with
        | nil => simp at hWn
        | cons y t => exact ⟨y, t, rfl⟩
      rw [hiW, List.drop_zero, shift1, List.length_cons, List.take_succ_cons,
        List.take_succ_cons]
      rfl
    · rw [if_neg hlen]
  · rw [if_neg hguard]

theorem windowAt_none_of_ge {W i : ℕ} (vs : List ℚ) (hW : 1 ≤ W)
    (h : vs.length ≤ i) : windowAt W vs i = none := by
  rw [windowAt]
  by_cases hguard : W ≤ i + 1
  · rw [if_pos hguard]
    by_cases hlen : (((shift1 vs).drop (i + 1 - W)).take W).length = W
    · exfalso
      simp only [List.length_take, List.length_drop, shift1_length] at hlen
      omega
    · rw [if_neg hlen]
  · rw [if_neg hguard]

/-- The rolling point at `i ≥ W` (within the series). -/
theorem rollingAt_eq {W i : ℕ} (vs : List ℚ) (hW : 1 ≤ W) (h1 : W ≤ i)
    (h2 : i < vs.length) :
    rollingAt W vs i = some (mean ((vs.drop (i - W)).take W),
      if 2 ≤ W then some (sampleVar ((vs.drop (i - W)).take W)) else none) := by
  rw [rollingAt, windowAt_eq vs hW h1 h2]
  simp only [Option.map_some', window_length vs h1 h2]

theorem rollingAt_none_of_lt {W i : ℕ} (vs : List ℚ) (hW : 1 ≤ W) (h : i < W) :
    rollingAt W vs i = none := by
  rw [rollingAt, windowAt_none_of_lt vs hW h]
  rfl

theorem rollingAt_none_of_ge {W i : ℕ} (vs : List ℚ) (hW : 1 ≤ W)
    (h : vs.length ≤ i) : rollingAt W vs i = none := by
  rw [rollingAt, windowAt_none_of_ge vs hW h]
  rfl

/-! ### Causality: mutations at index `i` or later do not affect index `i` -/

theorem shift1_set (vs : List ℚ) (j : ℕ) (x : ℚ) :
    shift1 (vs.set j x) = (shift1 vs).set (j + 1) (some x) := by
  rw [shift1, shift1, List.length_set, List.map_set, ← List.set_cons_succ,
    List.set_take]

theorem windowAt_set {i j : ℕ} (W : ℕ) (vs : List ℚ) (x : ℚ) (hij : i ≤ j) :
    windowAt W (vs.set j x) i = windowAt W vs i := by
  rw [windowAt, windowAt, shift1_set]
  by_cases hguard : W ≤ i + 1
  · rw [if_pos hguard, if_pos hguard, List.drop_set,
      if_neg (by omega : ¬(j + 1 < i + 1 - W)), List.set_take,
      List.set_eq_of_length_le]
    simp only [List.length_take]
    omega
  · rw [if_neg hguard, if_neg hguard]

theorem rollingAt_set {i j : ℕ} (W : ℕ) (vs : List ℚ) (x : ℚ) (hij : i ≤ j) :
    rollingAt W (vs.set j x) i = rollingAt W vs i := by
  rw [rollingAt, rollingAt, windowAt_set W vs x hij]

/-! ### The rows surviving `dropna(subset=['moving_avg'])` are `g.drop W` -/

theorem filterMap_ite_ge {α : Type} (W : ℕ) (f : ℕ → Option α) (l : List ℕ) :
    (l.filterMap fun i => if W ≤ i then f i else none)
      = (l.filter fun i => decide (W ≤ i)).filterMap f := by
  induction l with
  | nil => rfl
  | cons a t ih =>
    by_cases h : W ≤ a <;>
      simp [List.filterMap_cons, List.filter_cons, h, ih]

theorem range_filter_ge (n W : ℕ) :
    (List.range n).filter (fun i => decide (W ≤ i)) = List.range' W (n - W) := by
  induction n with
  | zero => simp
  | succ n ih =>
    rw [List.range_succ, List.filter_append, ih]
    by_cases h : W ≤ n
    · rw [show n + 1 - W = (n - W) + 1 by omega, List.range'_concat]
      simp only [List.filter_cons, List.filter_nil, decide_eq_true_eq, if_pos h]
      rw [show W + 1 * (n - W) = n by omega]
    · rw [show n + 1 - W = 0 by omega, show n - W = 0 by omega]
      simp only [List.filter_cons, List.filter_nil, decide_eq_true_eq, if_neg h]
      rfl

theorem range'_filterMap_getElem_cons {α : Type} (a : α) (t : List α) (m : ℕ) :
    ∀ s, (List.range' (s + 1) m).filterMap (fun i => (a :: t)[i]?)
      = (List.range' s m).filterMap (fun i => t[i]?) := by
  induction m with
  | zero => intro s; rfl
  | succ m ih =>
    intro s
    rw [List.range'_succ, List.range'_succ, List.filterMap_cons, List.filterMap_cons,
      List.getElem?_cons_succ, ih (s + 1)]

theorem range'_filterMap_getElem {α : Type} :
    ∀ (g : List α) (W : ℕ),
      (List.range' W (g.length - W)).filterMap (fun i => g[i]?) = g.drop W := by
  intro g
  induction g with
  | nil => intro W; simp
  | cons a t ih =>
    intro W
    cases W with
    | zero =>
      rw [List.length_cons, Nat.sub_zero, List.range'_succ, List.filterMap_cons]
      simp only [List.getElem?_cons_zero]
      rw [range'_filterMap_getElem_cons a t t.length 0, show t.length = t.length - 0 by omega,
        ih 0, List.drop_zero, List.drop_zero]
    | succ W' =>
      rw [List.length_cons, Nat.succ_sub_succ, List.drop_succ_cons, ← ih W',
        ← range'_filterMap_getElem_cons a t (t.length - W') W']

/-- The rows surviving `dropna(subset=['moving_avg'])` are exactly the rows
of the group at indices `W .. len-1`, i.e. `g.drop W`. -/
theorem withStats_map_row {W : ℕ} (g : List CRow) (hW : 1 ≤ W) :
    (withStats W g).map StatRow.row = g.drop W := by
  rw [withStats, List.map_filterMap]
  have hcongr : ∀ i ∈ List.range g.length,
      Option.map StatRow.row
        (match g[i]?, rollingAt W (g.map CRow.views) i with
          | some r, some s => some ⟨r, s.1, s.2⟩
          | _, _ => none)
        = if W ≤ i then g[i]? else none := by
    intro i hi
    rw [List.mem_range] at hi
    have hlen : i < (g.map CRow.views).length := by
      simpa using hi
    by_cases h : W ≤ i
    · rw [rollingAt_eq (g.map CRow.views) hW h hlen,
        List.getElem?_eq_getElem hi, if_pos h]
      rfl
    · rw [rollingAt_none_of_lt (g.map CRow.views) hW (by omega), if_neg h]
      cases g[i]? <;> rfl
  rw [List.filterMap_congr hcongr, filterMap_ite_ge, range_filter_ge,
    range'_filterMap_getElem g W]

/-! ### Stability of the sort -/

theorem filter_orderedInsert_of_neg {α : Type} (le : α → α → Prop)
    [DecidableRel le] (p : α → Bool) (a : α) (l : List α) (hpa : p a = false) :
    (List.orderedInsert le a l).filter p = l.filter p := by
  induction l with
  | nil => simp [hpa]
  | cons b t ih =>
    by_cases h : le a b
    · simp only [List.orderedInsert, if_pos h, List.filter_cons, hpa]
      rfl
    · simp only [List.orderedInsert, if_neg h, List.filter_cons]
      cases hb : p b <;> simp [ih]

theorem filter_orderedInsert_of_tie {α : Type} (le : α → α → Prop)
    [DecidableRel le] (p : α → Bool) (a : α) (l : List α) (hpa : p a = true)
    (h : ∀ b ∈ l, p b = true → le a b) :
    (List.orderedInsert le a l).filter p = a :: l.filter p := by
  induction l with
  | nil => simp [hpa]
  | cons b t ih =>
    by_cases hb : le a b
    · simp only [List.orderedInsert, if_pos hb, List.filter_cons, hpa]
      rfl
    · have hpb : p b = false := by
        cases hq : p b
        · rfl
        · exact absurd (h b (List.mem_cons_self b t) hq) hb
      simp only [List.orderedInsert, if_neg hb, List.filter_cons, hpb]
      exact ih fun c hc hpc => h c (List.mem_cons_of_mem b hc) hpc

/-- A stable sort does not reorder elements whose sort keys are all tied:
filtering such a class out of the sorted list gives the input order. -/
theorem filter_insertionSort {α : Type} (le : α → α → Prop) [DecidableRel le]
    (p : α → Bool) (l : List α)
    (h : ∀ x ∈ l, ∀ y ∈ l, p x = true → p y = true → le x y) :
    (List.insertionSort le l).filter p = l.filter p := by
  induction l with
  | nil => rfl
  | cons a t ih =>
    have hsub : ∀ x ∈ t, ∀ y ∈ t, p x = true → p y = true → le x y :=
      fun x hx y hy => h x (List.mem_cons_of_mem a hx) y (List.mem_cons_of_mem a hy)
    rw [List.insertionSort]
    cases hpa : p a
    · rw [filter_orderedInsert_of_neg le p a _ hpa, ih hsub, List.filter_cons,
        hpa]
      simp
    · rw [filter_orderedInsert_of_tie le p a _ hpa ?ties, ih hsub,
        List.filter_cons, hpa]
      · simp
      case ties =>
        intro b hb hpb
        have hbt : b ∈ t := ((List.perm_insertionSort le t).mem_iff).mp hb
        exact h a (List.mem_cons_self a t) b (List.mem_cons_of_mem a hbt) hpa hpb

/-! ### Component extraction from keys -/

theorem entityKey_components {x y : CRow} (h : entityKey x = entityKey y) :
    x.track_id = y.track_id ∧ x.track_name = y.track_name ∧
      x.artist_name = y.artist_name ∧ x.country = y.country := by
  simp only [entityKey, toLex_inj, Prod.mk.injEq] at h
  exact ⟨h.1, h.2.1, h.2.2.1, h.2.2.2⟩

theorem sortKey_eq_of_components {x y : CRow} (h1 : x.track_id = y.track_id)
    (h2 : x.country = y.country) (h3 : x.date = y.date) :
    sortKey x = sortKey y := by
  rw [sortKey, sortKey, h1, h2, h3]

theorem dateLe_of_sortLe {x y : CRow} (h1 : x.track_id = y.track_id)
    (h2 : x.country = y.country) (h : sortLe x y) : dateLe x.date y.date := by
  rw [sortLe, sortKey, sortKey, h1, h2] at h
  rcases (Prod.Lex.le_iff _ _).mp h with hlt | ⟨_, hrest⟩
  · exact absurd hlt (lt_irrefl _)
  · rcases (Prod.Lex.le_iff _ _).mp hrest with hlt | ⟨_, hdate⟩
    · exact absurd hlt (lt_irrefl _)
    · exact hdate

theorem mem_segmentOf_key {rows : List CRow} {k} {r : CRow}
    (h : r ∈ segmentOf rows k) : entityKey r = k := by
  have := (List.mem_filter.mp h).2
  exact of_decide_eq_true this

/-! ### Sortedness of the pipeline -/

theorem sorted_sortedRows (raw : List RawRow) :
    List.Sorted sortLe (sortedRows raw) :=
  List.sorted_insertionSort sortLe (cleanRows raw)

theorem sorted_segmentOf (raw : List RawRow) (k) :
    List.Sorted sortLe (segmentOf (sortedRows raw) k) :=
  (sorted_sortedRows raw).filter _

theorem segment_dates_sorted (raw : List RawRow) (k) :
    List.Pairwise (fun a b : CRow => dateLe a.date b.date)
      (segmentOf (sortedRows raw) k) := by
  refine List.Pairwise.imp_of_mem ?_ (sorted_segmentOf raw k)
  intro a b ha hb hab
  have hka := mem_segmentOf_key ha
  have hkb := mem_segmentOf_key hb
  have hcomp := entityKey_components (hka.trans hkb.symm)
  exact dateLe_of_sortLe hcomp.1 hcomp.2.2.2 hab

theorem groupKeys_sorted_lt (rows : List CRow) :
    List.Pairwise (fun a b => a < b) (groupKeys rows) := by
  have hs : List.Sorted (fun a b => a ≤ b) (groupKeys rows) :=
    List.sorted_insertionSort _ _
  have hn : (groupKeys rows).Nodup := by
    rw [groupKeys]
    exact (List.perm_insertionSort _ _).symm.nodup (List.nodup_dedup _)
  exact hs.lt_of_le hn

/-! ### Numeric facts -/

theorem sampleVar_nonneg (w : List ℚ) : 0 ≤ sampleVar w := by
  rw [sampleVar]
  cases w with
  | nil => simp
  | cons x t =>
    apply div_nonneg
    · apply List.sum_nonneg
      intro y hy
      obtain ⟨z, _, rfl⟩ := List.mem_map.mp hy
      positivity
    · have : (1 : ℚ) ≤ ((x :: t).length : ℚ) := by
        have : 1 ≤ (x :: t).length := by simp
        exact_mod_cast this
      linarith

/-- The Boolean classifier is the source's real comparison
`views > moving_avg + moving_std * K`. -/
theorem exceedsBand_iff (v avg K : ℚ) (s2opt : Option ℚ) (hK : 0 ≤ K)
    (hs : ∀ s2, s2opt = some s2 → 0 ≤ s2) :
    exceedsBand v avg s2opt K = true ↔
      (avg : ℝ) + movStdR s2opt * (K : ℝ) < (v : ℝ) := by
  have hKR : (0 : ℝ) ≤ (K : ℝ) := by exact_mod_cast hK
  cases s2opt with
  | none =>
    simp only [exceedsBand, movStdR, decide_eq_true_eq, zero_mul, add_zero]
    exact_mod_cast Iff.rfl
  | some s2 =>
    have hs2 : (0 : ℝ) ≤ (s2 : ℝ) := by exact_mod_cast hs s2 rfl
    have hsq : (0 : ℝ) ≤ Real.sqrt (s2 : ℝ) := Real.sqrt_nonneg _
    simp only [exceedsBand, movStdR, Bool.and_eq_true, decide_eq_true_eq]
    constructor
    · rintro ⟨h1, h2⟩
      have h1R : (avg : ℝ) < (v : ℝ) := by exact_mod_cast h1
      have h2R : ((K : ℝ)) ^ 2 * (s2 : ℝ) < ((v : ℝ) - (avg : ℝ)) ^ 2 := by
        push_cast at h2 ⊢
        exact_mod_cast h2
      have hlt : Real.sqrt ((K : ℝ) ^ 2 * (s2 : ℝ))
          < Real.sqrt (((v : ℝ) - (avg : ℝ)) ^ 2) :=
        Real.sqrt_lt_sqrt (by positivity) h2R
      rw [Real.sqrt_mul (by positivity) _, Real.sqrt_sq hKR,
        Real.sqrt_sq (by linarith)] at hlt
      nlinarith [hlt]
    · intro h
      have h1R : (avg : ℝ) < (v : ℝ) := by nlinarith [mul_nonneg hsq hKR]
      have h2R : Real.sqrt (s2 : ℝ) * (K : ℝ) < (v : ℝ) - (avg : ℝ) := by
        linarith
      have hsqle : (Real.sqrt (s2 : ℝ) * (K : ℝ)) ^ 2
          < ((v : ℝ) - (avg : ℝ)) ^ 2 := by
        apply pow_lt_pow_left h2R (by positivity)
        omega
      rw [mul_pow, Real.sq_sqrt hs2] at hsqle
      constructor
      · exact_mod_cast h1R
      · have : ((K : ℝ)) ^ 2 * (s2 : ℝ) < ((v : ℝ) - (avg : ℝ)) ^ 2 := by
          nlinarith [hsqle]
        push_cast at this ⊢
        exact_mod_cast this

theorem withStats_var_nonneg {W : ℕ} {g : List CRow} {t : StatRow}
    (ht : t ∈ withStats W g) : ∀ s2, t.moving_var = some s2 → 0 ≤ s2 := by
  rw [withStats] at ht
  obtain ⟨i, _, hmat⟩ := List.mem_filterMap.mp ht
  intro s2 h2
  cases hg : g[i]? with
  | none => rw [hg] at hmat; exact absurd hmat (by simp)
  | some r =>
    cases hr : rollingAt W (g.map CRow.views) i with
    | none => rw [hg, hr] at hmat; exact absurd hmat (by simp)
    | some s =>
      rw [hg, hr] at hmat
      have ht2 : t = ⟨r, s.1, s.2⟩ := by
        simpa using hmat.symm
      rw [rollingAt] at hr
      cases hw : windowAt W (g.map CRow.views) i with
      | none => rw [hw] at hr; exact absurd hr (by simp)
      | some w =>
        rw [hw, Option.map_some'] at hr
        have hs2 : s.2 = if 2 ≤ w.length then some (sampleVar w) else none := by
          rw [← Option.some_inj.mp hr]
        rw [ht2] at h2
        simp only at h2
        rw [h2] at hs2
        by_cases hwl : 2 ≤ w.length
        · rw [if_pos hwl] at hs2
          rw [← Option.some_inj.mp hs2.symm]
          exact sampleVar_nonneg w
        · rw [if_neg hwl] at hs2
          exact absurd hs2.symm (by simp)

theorem roundHalfEven_abs (x : ℚ) : |(roundHalfEven x : ℚ) - x| ≤ 1 / 2 := by
  have h0 : ((⌊x⌋ : ℤ) : ℚ) ≤ x := Int.floor_le x
  have h1 : x < ((⌊x⌋ : ℤ) : ℚ) + 1 := Int.lt_floor_add_one x
  rw [roundHalfEven]
  split_ifs with hc1 hc2 hc3 <;> (rw [abs_le]; push_cast; constructor <;> linarith)

theorem round2_abs (q : ℚ) : |round2 q - q| ≤ 1 / 200 := by
  have h := roundHalfEven_abs (q * 100)
  rw [round2]
  have heq : (roundHalfEven (q * 100) : ℚ) / 100 - q
      = ((roundHalfEven (q * 100) : ℚ) - q * 100) / 100 := by ring
  rw [heq, abs_div]
  rw [abs_of_pos (by norm_num : (0 : ℚ) < 100)]
  linarith

theorem round2_denom (q : ℚ) : ∃ z : ℤ, round2 q = (z : ℚ) / 100 :=
  ⟨roundHalfEven (q * 100), rfl⟩

theorem ratTrunc_bounds (q : ℚ) (h : 0 ≤ q) :
    (ratTrunc q : ℚ) ≤ q ∧ q < (ratTrunc q : ℚ) + 1 := by
  rw [ratTrunc, if_pos h]
  exact ⟨Int.floor_le q, Int.lt_floor_add_one q⟩

/-! ### Claim theorems -/

/-- C1: for every series and every 0-indexed position `i ≥ W` within it, the
engine produces a rolling point whose `moving_avg` is the arithmetic mean of
the `W` values at indices `i-W .. i-1`, whose `moving_std` is the sample
standard deviation of those same `W` values with `0` substituted when the
standard deviation is undefined (window of fewer than two samples), and
whose `upper_band` equals `moving_avg + K * moving_std`; positions
`0 .. W-1` get no rolling point (hence are excluded from classification). -/
theorem C1_rolling_point_correct (W i : ℕ) (K : ℚ) (vs : List ℚ)
    (hW : 1 ≤ W) (h1 : W ≤ i) (h2 : i < vs.length) :
    rollingAt W vs i
        = some (mean ((vs.drop (i - W)).take W),
            if 2 ≤ W then some (sampleVar ((vs.drop (i - W)).take W)) else none) ∧
      movingStdAt W vs i
        = some (if 2 ≤ W
            then Real.sqrt ((sampleVar ((vs.drop (i - W)).take W) : ℚ) : ℝ)
            else 0) ∧
      upperBandAt W K vs i
        = some ((mean ((vs.drop (i - W)).take W) : ℝ)
            + (K : ℝ) * (if 2 ≤ W
                then Real.sqrt ((sampleVar ((vs.drop (i - W)).take W) : ℚ) : ℝ)
                else 0)) ∧
      ∀ j, j < W → rollingAt W vs j = none := by
  refine ⟨rollingAt_eq vs hW h1 h2, ?_, ?_,
    fun j hj => rollingAt_none_of_lt vs hW hj⟩
  · rw [movingStdAt, rollingAt_eq vs hW h1 h2, Option.map_some']
    by_cases h : 2 ≤ W
    · rw [if_pos h, if_pos h]
      rfl
    · rw [if_neg h, if_neg h]
      rfl
  · rw [upperBandAt, rollingAt_eq vs hW h1 h2, Option.map_some']
    by_cases h : 2 ≤ W
    · rw [if_pos h, if_pos h]
      simp only [movStdR, Option.some_inj]
      ring
    · rw [if_neg h, if_neg h]
      simp only [movStdR, Option.some_inj]
      ring

theorem C1_witness :
    (1 ≤ 2 ∧ 2 ≤ 2 ∧ 2 < vsC1.length) ∧
      (rollingAt 2 vsC1 2
          = some (mean ((vsC1.drop (2 - 2)).take 2),
              if 2 ≤ 2 then some (sampleVar ((vsC1.drop (2 - 2)).take 2)) else none) ∧
        movingStdAt 2 vsC1 2
          = some (if 2 ≤ 2
              then Real.sqrt ((sampleVar ((vsC1.drop (2 - 2)).take 2) : ℚ) : ℝ)
              else 0) ∧
        upperBandAt 2 (2 : ℚ) vsC1 2
          = some ((mean ((vsC1.drop (2 - 2)).take 2) : ℝ)
              + ((2 : ℚ) : ℝ) * (if 2 ≤ 2
                  then Real.sqrt ((sampleVar ((vsC1.drop (2 - 2)).take 2) : ℚ) : ℝ)
                  else 0)) ∧
        ∀ j, j < 2 → rollingAt 2 vsC1 j = none) :=
  ⟨⟨by norm_num, by norm_num, by norm_num [vsC1]⟩,
    C1_rolling_point_correct 2 2 2 vsC1 (by norm_num) (by norm_num)
      (by norm_num [vsC1])⟩

/-- C2 (causality / noninterference): the rolling statistics at index `i`
(`moving_avg`, the variance carrying `moving_std`, and hence `upper_band`)
are unchanged under any mutation of the observation value at index `i` or
any later index `j ≥ i`; only strictly earlier values can affect them. -/
theorem C2_causality (W i j : ℕ) (K x : ℚ) (vs : List ℚ) (hij : i ≤ j) :
    rollingAt W (vs.set j x) i = rollingAt W vs i ∧
      movingStdAt W (vs.set j x) i = movingStdAt W vs i ∧
      upperBandAt W K (vs.set j x) i = upperBandAt W K vs i := by
  refine ⟨rollingAt_set W vs x hij, ?_, ?_⟩
  · rw [movingStdAt, movingStdAt, rollingAt_set W vs x hij]
  · rw [upperBandAt, upperBandAt, rollingAt_set W vs x hij]

theorem C2_witness :
    2 ≤ 3 ∧
      (rollingAt 2 (vsC1.set 3 999) 2 = rollingAt 2 vsC1 2 ∧
        movingStdAt 2 (vsC1.set 3 999) 2 = movingStdAt 2 vsC1 2 ∧
        upperBandAt 2 (2 : ℚ) (vsC1.set 3 999) 2 = upperBandAt 2 (2 : ℚ) vsC1 2) :=
  ⟨by norm_num, C2_causality 2 2 3 2 999 vsC1 (by norm_num)⟩

/-- C4 (windowing boundary): the rows that survive `dropna` are exactly
`g.drop W`; a group shorter than the window contributes no anomalies (it is
skipped); a group of exactly `W` rows yields zero rolling points and zero
records; a group of `W + 1` rows yields exactly one evaluable point (the
last row, by the first conjunct). -/
theorem C4_windowing_boundary (W : ℕ) (K : ℚ) (g : List CRow) (hW : 1 ≤ W) :
    (withStats W g).map StatRow.row = g.drop W ∧
      (g.length < W → processGroup W K g = []) ∧
      (g.length = W → withStats W g = [] ∧ processGroup W K g = []) ∧
      (g.length = W + 1 → (withStats W g).length = 1) := by
  have hrow := withStats_map_row g hW
  refine ⟨hrow, ?_, ?_, ?_⟩
  · intro h
    rw [processGroup, if_pos h]
  · intro h
    have hmap : (withStats W g).map StatRow.row = [] := by
      rw [hrow, ← h, List.drop_length]
    have hws : withStats W g = [] := List.map_eq_nil_iff.mp hmap
    refine ⟨hws, ?_⟩
    rw [processGroup, if_neg (by omega), anomaliesDf, hws]
    rfl
  · intro h
    have hlen : (withStats W g).length = (g.drop W).length := by
      rw [← hrow, List.length_map]
    rw [hlen, List.length_drop, h]
    omega

theorem C4_witness :
    1 ≤ 2 ∧
      ((withStats 2 gC4).map StatRow.row = gC4.drop 2 ∧
        (gC4.length < 2 → processGroup 2 2 gC4 = []) ∧
        (gC4.length = 2 → withStats 2 gC4 = [] ∧ processGroup 2 2 gC4 = []) ∧
        (gC4.length = 2 + 1 → (withStats 2 gC4).length = 1)) :=
  ⟨by norm_num, C4_windowing_boundary 2 2 gC4 (by norm_num)⟩

/-- C3 (threshold conjunction): a surviving row is flagged iff both
`views > upper_band` (over the reals, `upper_band = moving_avg +
moving_std * K`) and `views > 1000` (the absolute floor, strict); in
particular `views ≤ 1000` is never flagged even when above the band. -/
theorem C3_classifier (W : ℕ) (K : ℚ) (g : List CRow) (t : StatRow)
    (hK : 0 ≤ K) (ht : t ∈ withStats W g) :
    t ∈ anomaliesDf W K g ↔
      (upperBandOf K t < (t.row.views : ℝ) ∧ (1000 : ℚ) < t.row.views) := by
  rw [anomaliesDf, List.mem_filter]
  constructor
  · rintro ⟨-, htrue⟩
    rw [isAnomaly, Bool.and_eq_true, decide_eq_true_eq] at htrue
    obtain ⟨hband, hfloor⟩ := htrue
    refine ⟨?_, hfloor⟩
    rw [upperBandOf]
    exact (exceedsBand_iff _ _ K _ hK (withStats_var_nonneg ht)).mp hband
  · rintro ⟨hband, hfloor⟩
    refine ⟨ht, ?_⟩
    rw [isAnomaly, Bool.and_eq_true, decide_eq_true_eq]
    rw [upperBandOf] at hband
    exact ⟨(exceedsBand_iff _ _ K _ hK (withStats_var_nonneg ht)).mpr hband, hfloor⟩

theorem C3_witness :
    (0 : ℚ) ≤ 2 ∧ tC3 ∈ withStats 2 gC3 ∧
      (tC3 ∈ anomaliesDf 2 2 gC3 ↔
        (upperBandOf 2 tC3 < (tC3.row.views : ℝ) ∧ (1000 : ℚ) < tC3.row.views)) := by
  have hws : withStats 2 gC3 = [tC3] := by
    norm_num [withStats, gC3, rowU1, rowU2, rowU3, tC3, List.range_succ,
      rollingAt, windowAt, shift1, seqOpt, mean, sampleVar,
      List.filterMap_cons, List.filterMap_nil, List.filterMap_append]
  have hmem : tC3 ∈ withStats 2 gC3 := by
    rw [hws]
    exact List.mem_singleton.mpr rfl
  exact ⟨by norm_num, hmem, C3_classifier 2 2 gC3 tC3 (by norm_num) hmem⟩

/-- C10 (implicit invariant): every flagged row's observed value strictly
exceeds its unrounded local baseline, because flagging requires
`views > upper_band = moving_avg + moving_std * K` and
`moving_std ≥ 0`, `K ≥ 0`. -/
theorem C10_above_baseline (W : ℕ) (K : ℚ) (g : List CRow) (t : StatRow)
    (hK : 0 ≤ K) (ht : t ∈ anomaliesDf W K g) :
    (t.moving_avg : ℝ) ≤ upperBandOf K t ∧
      upperBandOf K t < (t.row.views : ℝ) ∧ t.moving_avg < t.row.views := by
  have htw : t ∈ withStats W g := List.mem_of_mem_filter ht
  have hKR : (0 : ℝ) ≤ (K : ℝ) := by exact_mod_cast hK
  have hstd : (0 : ℝ) ≤ movStdR t.moving_var := by
    cases t.moving_var with
    | none => simp [movStdR]
    | some s2 =>
      simp only [movStdR]
      exact Real.sqrt_nonneg _
  have hle : (t.moving_avg : ℝ) ≤ upperBandOf K t := by
    rw [upperBandOf]
    nlinarith [mul_nonneg hstd hKR]
  have hflag := (List.mem_filter.mp ht).2
  rw [isAnomaly, Bool.and_eq_true, decide_eq_true_eq] at hflag
  have hub : upperBandOf K t < (t.row.views : ℝ) := by
    rw [upperBandOf]
    exact (exceedsBand_iff _ _ K _ hK (withStats_var_nonneg htw)).mp hflag.1
  refine ⟨hle, hub, ?_⟩
  have : (t.moving_avg : ℝ) < (t.row.views : ℝ) := lt_of_le_of_lt hle hub
  exact_mod_cast this

theorem C10_witness :
    (0 : ℚ) ≤ 2 ∧ tC10 ∈ anomaliesDf 2 2 gC10 ∧
      ((tC10.moving_avg : ℝ) ≤ upperBandOf 2 tC10 ∧
        upperBandOf 2 tC10 < (tC10.row.views : ℝ) ∧
        tC10.moving_avg < tC10.row.views) := by
  have hdf : anomaliesDf 2 2 gC10 = [tC10] := by
    norm_num [anomaliesDf, withStats, gC10, rowU1, rowU2, rowU4, tC10,
      List.range_succ, rollingAt, windowAt, shift1, seqOpt, mean, sampleVar,
      List.filterMap_cons, List.filterMap_nil, List.filterMap_append,
      List.filter_cons, isAnomaly, exceedsBand]
  have hmem : tC10 ∈ anomaliesDf 2 2 gC10 := by
    rw [hdf]
    exact List.mem_singleton.mpr rfl
  exact ⟨by norm_num, hmem, C10_above_baseline 2 2 gC10 tC10 (by norm_num) hmem⟩

/-- C5 (determinism and output order): the engine is a pure function, so two
runs on equal inputs give equal record sequences; the output is the
concatenation of the per-key record lists over the strictly ascending list
of entity keys, and within each key's segment the flagged rows (hence the
records built from them, in the same order) have non-decreasing dates. -/
theorem C5_determinism_order (W : ℕ) (K : ℚ) (raw raw' : List RawRow)
    (hW : 1 ≤ W) (h : raw = raw') :
    allAnomalies W K raw = allAnomalies W K raw' ∧
      allAnomalies W K raw
        = (groupKeys (sortedRows raw)).flatMap
            (fun k => processGroup W K (segmentOf (sortedRows raw) k)) ∧
      List.Pairwise (fun a b => a < b) (groupKeys (sortedRows raw)) ∧
      ∀ k, List.Pairwise (fun a b : StatRow => dateLe a.row.date b.row.date)
        (anomaliesDf W K (segmentOf (sortedRows raw) k)) := by
  refine ⟨by rw [h], rfl, groupKeys_sorted_lt _, ?_⟩
  intro k
  have hsub : (anomaliesDf W K (segmentOf (sortedRows raw) k)).Sublist
      (withStats W (segmentOf (sortedRows raw) k)) := List.filter_sublist _
  have hsub2 : ((withStats W (segmentOf (sortedRows raw) k)).map
      StatRow.row).Sublist (segmentOf (sortedRows raw) k) := by
    rw [withStats_map_row _ hW]
    exact List.drop_sublist _ _
  have h1 : List.Pairwise (fun a b : StatRow => dateLe a.row.date b.row.date)
      (withStats W (segmentOf (sortedRows raw) k)) := by
    have hp := (segment_dates_sorted raw k).sublist hsub2
    rw [List.pairwise_map] at hp
    exact hp
  exact h1.sublist hsub

theorem C5_witness :
    (1 ≤ 2 ∧ rawC5 = rawC5) ∧
      (allAnomalies 2 2 rawC5 = allAnomalies 2 2 rawC5 ∧
        allAnomalies 2 2 rawC5
          = (groupKeys (sortedRows rawC5)).flatMap
              (fun k => processGroup 2 2 (segmentOf (sortedRows rawC5) k)) ∧
        List.Pairwise (fun a b => a < b) (groupKeys (sortedRows rawC5)) ∧
        ∀ k, List.Pairwise (fun a b : StatRow => dateLe a.row.date b.row.date)
          (anomaliesDf 2 2 (segmentOf (sortedRows rawC5) k))) :=
  ⟨⟨by norm_num, rfl⟩, C5_determinism_order 2 2 rawC5 rawC5 (by norm_num) rfl⟩

/-- C9 (stable tie-break in segmentation): rows with a given entity key and
a given timestamp appear in that key's segment exactly as they appear in
the cleaned input, in the original input order — no deduplication, ties
broken by input position (the sort is stable). -/
theorem C9_stable_ties (raw : List RawRow)
    (k : String ×ₗ String ×ₗ String ×ₗ String) (d : Date) :
    (segmentOf (sortedRows raw) k).filter (fun r => decide (r.date = d))
      = (cleanRows raw).filter
          (fun r => decide (entityKey r = k) && decide (r.date = d)) := by
  have htie : ∀ x ∈ cleanRows raw, ∀ y ∈ cleanRows raw,
      (decide (x.date = d) && decide (entityKey x = k)) = true →
      (decide (y.date = d) && decide (entityKey y = k)) = true → sortLe x y := by
    intro x _ y _ hx hy
    rw [Bool.and_eq_true, decide_eq_true_eq, decide_eq_true_eq] at hx hy
    have hc := entityKey_components (hx.2.trans hy.2.symm)
    exact le_of_eq (sortKey_eq_of_components hc.1 hc.2.2.2 (hx.1.trans hy.1.symm))
  rw [segmentOf, sortedRows, List.filter_filter,
    filter_insertionSort sortLe _ _ htie]
  apply List.filter_congr
  intro a _
  exact Bool.and_comm _ _

/-- C6 (error semantics): a missing input artifact yields a structured
error result with no output written, while a completed run that found no
anomalies yields a success result (also with no file written) that is
distinct from every error result, so the caller can tell
successful-but-empty detection from a failed run. -/
theorem C6_error_semantics (raw : List RawRow)
    (h : allAnomalies MOVING_AVG_WINDOW STD_DEV_THRESHOLD raw = []) :
    data_ingestion_and_anomaly_detection_tool none
        = ⟨.err ("Data file not found: " ++ DATA_FILE), none⟩ ∧
      data_ingestion_and_anomaly_detection_tool (some raw)
        = ⟨.emptySuccess "No significant anomalies found.", none⟩ ∧
      (∀ m, ToolResult.emptySuccess "No significant anomalies found."
        ≠ ToolResult.err m) ∧
      statusOf (data_ingestion_and_anomaly_detection_tool (some raw)).result
        = "success" ∧
      statusOf (data_ingestion_and_anomaly_detection_tool none).result
        = "error" := by
  have h2 : data_ingestion_and_anomaly_detection_tool (some raw)
      = ⟨.emptySuccess "No significant anomalies found.", none⟩ := by
    simp only [data_ingestion_and_anomaly_detection_tool, h, List.isEmpty_nil,
      if_true]
  refine ⟨rfl, h2, ?_, ?_, rfl⟩
  · intro m hEq
    exact ToolResult.noConfusion hEq
  · rw [h2]
    rfl

theorem C6_witness :
    allAnomalies MOVING_AVG_WINDOW STD_DEV_THRESHOLD [] = [] ∧
      (data_ingestion_and_anomaly_detection_tool none
          = ⟨.err ("Data file not found: " ++ DATA_FILE), none⟩ ∧
        data_ingestion_and_anomaly_detection_tool (some [])
          = ⟨.emptySuccess "No significant anomalies found.", none⟩ ∧
        (∀ m, ToolResult.emptySuccess "No significant anomalies found."
          ≠ ToolResult.err m) ∧
        statusOf (data_ingestion_and_anomaly_detection_tool (some [])).result
          = "success" ∧
        statusOf (data_ingestion_and_anomaly_detection_tool none).result
          = "error") :=
  ⟨rfl, C6_error_semantics [] rfl⟩

/-- C7 counterexample: the aggregate count of dropped rows is NOT observable
from the detection tool: two inputs that differ only in how many
unparseable-date rows they contain produce identical run outcomes, while
their dropped-row counts differ. -/
theorem C7_counterexample :
    data_ingestion_and_anomaly_detection_tool (some [rawGood, rawBad1])
        = data_ingestion_and_anomaly_detection_tool
            (some [rawGood, rawBad1, rawBad2]) ∧
      ([rawGood, rawBad1] : List RawRow).length
          - (cleanRows [rawGood, rawBad1]).length = 1 ∧
      ([rawGood, rawBad1, rawBad2] : List RawRow).length
          - (cleanRows [rawGood, rawBad1, rawBad2]).length = 2 :=
  ⟨rfl, rfl, rfl⟩

/-- C7 amended: every input row with an unparseable date is dropped locally
before segmentation — removing such rows beforehand changes nothing — and
the run is never aborted by them (the tool never returns an error result on
an in-memory table); the dropped-row count is not exposed in the result. -/
theorem C7_amended (raw : List RawRow) :
    data_ingestion_and_anomaly_detection_tool (some raw)
        = data_ingestion_and_anomaly_detection_tool
            (some (raw.filter (fun r => r.date.isSome))) ∧
      ∀ m, (data_ingestion_and_anomaly_detection_tool (some raw)).result
        ≠ ToolResult.err m := by
  have hclean : cleanRows (raw.filter (fun r => r.date.isSome)) = cleanRows raw := by
    induction raw with
    | nil => rfl
    | cons r t ih =>
      cases hd : r.date with
      | none =>
        simp only [cleanRows, List.filter_cons, hd, Option.isSome_none,
          Bool.false_eq_true, if_false, List.filterMap_cons, Option.map_none']
        exact ih
      | some dt =>
        simp only [cleanRows, List.filter_cons, hd, Option.isSome_some,
          if_true, List.filterMap_cons, Option.map_some']
        simp only [cleanRows] at ih
        rw [ih]
  have hall : allAnomalies MOVING_AVG_WINDOW STD_DEV_THRESHOLD
      (raw.filter fun r => r.date.isSome)
      = allAnomalies MOVING_AVG_WINDOW STD_DEV_THRESHOLD raw := by
    rw [allAnomalies, allAnomalies, sortedRows, sortedRows, hclean]
  constructor
  · simp only [data_ingestion_and_anomaly_detection_tool, hall]
  · intro m
    simp only [data_ingestion_and_anomaly_detection_tool]
    by_cases he : (allAnomalies MOVING_AVG_WINDOW STD_DEV_THRESHOLD raw).isEmpty
    · simp [he]
    · simp [he]

/-- C8 (record builder): a group that is not skipped contributes exactly one
record per flagged row, via `buildRecord`, whose fields are exactly: the
date formatted `YYYY-MM-DD`, the four passthrough identity fields, the
observed value truncated to an integer, the window moving average rounded
to two decimal places (an integer number of hundredths within `1/200` of
the exact average), and the platform; records are plain immutable values. -/
theorem C8_record_builder (W : ℕ) (K : ℚ) (g : List CRow) (t : StatRow)
    (h : ¬ g.length < W) :
    processGroup W K g = (anomaliesDf W K g).map buildRecord ∧
      (buildRecord t).date = fmtDate t.row.date ∧
      (buildRecord t).track_id = t.row.track_id ∧
      (buildRecord t).track_name = t.row.track_name ∧
      (buildRecord t).artist_name = t.row.artist_name ∧
      (buildRecord t).country = t.row.country ∧
      (buildRecord t).views = ratTrunc t.row.views ∧
      (buildRecord t).local_average = round2 t.moving_avg ∧
      (buildRecord t).platform = t.row.platform ∧
      (∃ z : ℤ, (buildRecord t).local_average = (z : ℚ) / 100) ∧
      |(buildRecord t).local_average - t.moving_avg| ≤ 1 / 200 ∧
      (0 ≤ t.row.views →
        ((buildRecord t).views : ℚ) ≤ t.row.views ∧
          t.row.views < ((buildRecord t).views : ℚ) + 1) :=
  ⟨by rw [processGroup, if_neg h], rfl, rfl, rfl, rfl, rfl, rfl, rfl, rfl,
    round2_denom t.moving_avg, round2_abs t.moving_avg,
    ratTrunc_bounds t.row.views⟩

theorem C8_witness :
    ¬ gC4.length < 2 ∧
      (processGroup 2 2 gC4 = (anomaliesDf 2 2 gC4).map buildRecord ∧
        (buildRecord tC8).date = fmtDate tC8.row.date ∧
        (buildRecord tC8).track_id = tC8.row.track_id ∧
        (buildRecord tC8).track_name = tC8.row.track_name ∧
        (buildRecord tC8).artist_name = tC8.row.artist_name ∧
        (buildRecord tC8).country = tC8.row.country ∧
        (buildRecord tC8).views = ratTrunc tC8.row.views ∧
        (buildRecord tC8).local_average = round2 tC8.moving_avg ∧
        (buildRecord tC8).platform = tC8.row.platform ∧
        (∃ z : ℤ, (buildRecord tC8).local_average = (z : ℚ) / 100) ∧
        |(buildRecord tC8).local_average - tC8.moving_avg| ≤ 1 / 200 ∧
        (0 ≤ tC8.row.views →
          ((buildRecord tC8).views : ℚ) ≤ tC8.row.views ∧
            tC8.row.views < ((buildRecord tC8).views : ℚ) + 1)) :=
  ⟨by norm_num [gC4], C8_record_builder 2 2 gC4 tC8 (by norm_num [gC4])⟩
